import Mathlib

/- Formal model of the retrieval-and-caching engine in workspace_manager.py:
   the BM25 document index, the content/chunk/structure caches, the file
   selection and scoring paths, directory expansion, and the token estimator.
   Python dicts are modelled as insertion-ordered association lists, floats as
   exact rationals or reals, and math.log as Real.log. -/

set_option maxHeartbeats 1000000
set_option maxRecDepth 100000

/-- Lookup in an insertion-ordered association list (Python dict lookup). -/
def assocFind? {κ β : Type} [DecidableEq κ] : List (κ × β) → κ → Option β
  | [], _ => none
  | e :: rest, k => if e.1 = k then some e.2 else assocFind? rest k

/-- Python dict assignment d[k] = v: replaces the value in place if the key is
    present (keeping its position), otherwise appends a new entry at the end. -/
def assocSet {κ β : Type} [DecidableEq κ] : List (κ × β) → κ → β → List (κ × β)
  | [], k, v => [(k, v)]
  | e :: rest, k, v =>
    if e.1 = k then (e.1, v) :: rest else e :: assocSet rest k v

/-- Python del d[k] / d.pop(k, None): removes the entry for k. -/
def assocErase {κ β : Type} [DecidableEq κ] (l : List (κ × β)) (k : κ) : List (κ × β) :=
  l.filter (fun e => e.1 ≠ k)

/-- Python `k in d` for a dict modelled as an association list. -/
def assocHas {κ β : Type} [DecidableEq κ] (l : List (κ × β)) (k : κ) : Bool :=
  l.any (fun e => e.1 = k)

/-- Character-level lowercasing, the effect of Python str.lower on ASCII
    text. -/
def pyLower (s : String) : String :=
  String.mk (s.data.map Char.toLower)

/-- Splitter behind strSplitOn: scan the text, emitting the accumulated piece
    (held in reverse) at each non-overlapping occurrence of the separator.
    The fuel argument starts at the text length. -/
def splitOnCharsAux (sep : List Char) : Nat → List Char → List Char → List (List Char)
  | _, [], acc => [acc.reverse]
  | 0, l, acc => [acc.reverse ++ l]
  | fuel + 1, c :: rest, acc =>
    if sep.isPrefixOf (c :: rest) then
      acc.reverse :: splitOnCharsAux sep fuel (rest.drop (sep.length - 1)) []
    else splitOnCharsAux sep fuel rest (c :: acc)

/-- String.splitOn / Python str.split(sep): pieces between non-overlapping
    left-to-right occurrences of the separator; the whole string when the
    separator is empty. -/
def strSplitOn (s sep : String) : List String :=
  if sep = "" then [s]
  else (splitOnCharsAux sep.data s.data.length s.data []).map String.mk

/-- Does the first string start with the second? -/
def strStartsWith (s pre : String) : Bool :=
  pre.data.isPrefixOf s.data

/-- Does the first string end with the second? -/
def strEndsWith (s post : String) : Bool :=
  post.data.isSuffixOf s.data

/-- First n characters of a string (Python s[:n]). -/
def strTake (s : String) (n : Nat) : String :=
  String.mk (s.data.take n)

/-- All but the first n characters of a string (Python s[n:]). -/
def strDrop (s : String) (n : Nat) : String :=
  String.mk (s.data.drop n)

/-- Python substring test `needle in hay`.  For a nonempty needle,
    splitting on it returns at least two pieces exactly when it occurs. -/
def pyIn (needle hay : String) : Bool :=
  needle = "" || (strSplitOn hay needle).length != 1

/-- Worker for Python str.split() with no argument: maximal non-whitespace
    runs, the current one accumulated in reverse. -/
def wordsAux : List Char → List Char → List String
  | run, [] => if run = [] then [] else [String.mk run.reverse]
  | run, c :: cs =>
    if c.isWhitespace then
      if run = [] then wordsAux [] cs else String.mk run.reverse :: wordsAux [] cs
    else wordsAux (c :: run) cs

/-- Python str.split() with no argument: split on whitespace runs, dropping
    empty pieces. -/
def pySplitWs (s : String) : List String :=
  wordsAux [] s.data

/-- Python os.path.dirname restricted to relative slash-separated paths:
    everything before the final slash, or the empty string. -/
def pyDirname (p : String) : String :=
  let parts := strSplitOn p "/"
  if parts.length ≤ 1 then "" else String.intercalate "/" parts.dropLast

/-- Stable insertion step for a descending sort by key (used to model Python's
    sorted(..., reverse=True), which is stable). -/
def insertByDesc {β γ : Type} [LinearOrder γ] (key : β → γ) (x : β) : List β → List β
  | [] => [x]
  | y :: ys => if key y ≤ key x then x :: y :: ys else y :: insertByDesc key x ys

/-- Stable descending sort by key, modelling Python sorted(..., reverse=True):
    equal keys keep their input order. -/
def sortByDesc {β γ : Type} [LinearOrder γ] (key : β → γ) : List β → List β
  | [] => []
  | x :: xs => insertByDesc key x (sortByDesc key xs)

/-- Stable insertion step for an ascending sort by key (Python sorted). -/
def insertByAsc {β γ : Type} [LinearOrder γ] (key : β → γ) (x : β) : List β → List β
  | [] => [x]
  | y :: ys => if key x < key y then x :: y :: ys else y :: insertByAsc key x ys

/-- Stable ascending sort by key, modelling Python sorted(...): equal keys keep
    their input order. -/
def sortByAsc {β γ : Type} [LinearOrder γ] (key : β → γ) : List β → List β
  | [] => []
  | x :: xs => insertByAsc key x (sortByAsc key xs)

/-- Word character of the regex \w for ASCII text: letters, digits, underscore. -/
def isWordChar (c : Char) : Bool :=
  c.isAlphanum || c = '_'

/-- Scanner for the tokenizer regex \w+|[^\w\s]: maximal word-character runs
    become one token, other non-space characters become single-character
    tokens, whitespace separates.  The first argument accumulates the current
    word run in reverse. -/
def tokenizeAux : List Char → List Char → List String
  | run, [] => if run = [] then [] else [String.mk run.reverse]
  | run, c :: cs =>
    if isWordChar c then tokenizeAux (c :: run) cs
    else
      let rest :=
        if c.isWhitespace then tokenizeAux [] cs
        else String.mk [c] :: tokenizeAux [] cs
      if run = [] then rest else String.mk run.reverse :: rest

/-- findall of the tokenizer pattern over a string. -/
def tokenizeRe (s : String) : List String :=
  tokenizeAux [] s.data

/-- Python str.isalnum: nonempty and every character alphanumeric. -/
def pyIsAlnum (s : String) : Bool :=
  s.length != 0 && s.data.all Char.isAlphanum

/-- BM25Search.preprocess: lowercase, tokenize, drop single-character tokens
    unless they are punctuation/symbol tokens. -/
def preprocess (text : String) : List String :=
  (tokenizeRe (pyLower text)).filter (fun t => 1 < t.length || !(pyIsAlnum t))

/-- A document of the search index.  The source stores the Counter of the
    token list and its total count; here the token list itself is kept and the
    Counter is recovered as List.count, with the token count stored in the
    length field exactly as the source does. -/
structure Document where
  path : String
  content : String
  terms : List String
  length : Nat
deriving DecidableEq

/-- State of BM25Search.  The scoring parameters k1 and b are the constructor
    defaults bmK1 and bmB below; avgDocLength is the stored float, and
    idfCache is the per-term IDF memo, in insertion order. -/
structure BM25State (α : Type) where
  documents : List (String × Document)
  avgDocLength : α
  totalDocs : Nat
  idfCache : List (String × α)
deriving DecidableEq

variable {α : Type} [LinearOrderedField α]

/-- Term frequency scaling parameter k1 = 1.5. -/
def bmK1 : α := 3 / 2

/-- Length normalization parameter b = 0.75. -/
def bmB : α := 3 / 4

/-- Fresh BM25Search state. -/
def initBM25 : BM25State α :=
  { documents := [], avgDocLength := 0, totalDocs := 0, idfCache := [] }

/-- Sum of the stored lengths of all indexed documents. -/
def sumLengths (docs : List (String × Document)) : Nat :=
  (docs.map (fun e => e.2.length)).sum

/-- BM25Search.add_document: preprocess, build the Document, store it under
    its path, recompute totalDocs and avgDocLength, clear the IDF cache. -/
def addDocument (s : BM25State α) (path content : String) : BM25State α :=
  let tokens := preprocess content
  let doc : Document := { path := path, content := content, terms := tokens, length := tokens.length }
  let documents := assocSet s.documents path doc
  let totalDocs := documents.length
  { documents := documents
    totalDocs := totalDocs
    avgDocLength := if 0 < totalDocs then (sumLengths documents : α) / (totalDocs : α) else 0
    idfCache := [] }

/-- BM25Search.remove_document: if present, delete the document, recompute
    totalDocs and avgDocLength, clear the IDF cache; otherwise do nothing. -/
def removeDocument (s : BM25State α) (path : String) : BM25State α :=
  if assocHas s.documents path then
    let documents := assocErase s.documents path
    let totalDocs := documents.length
    { documents := documents
      totalDocs := totalDocs
      avgDocLength := if 0 < totalDocs then (sumLengths documents : α) / (totalDocs : α) else 0
      idfCache := [] }
  else s

/-- Number of indexed documents whose term Counter contains the term. -/
def docFreq (docs : List (String × Document)) (term : String) : Nat :=
  (docs.filter (fun e => e.2.terms.contains term)).length

/-- BM25Search._calculate_idf with its memo: on a cache miss the smoothed IDF
    log(1 + (N - df + 0.5) / (df + 0.5)) is computed with the given log
    function and appended to the cache. -/
def calculateIdf (lg : α → α) (s : BM25State α) (term : String) : α × BM25State α :=
  match assocFind? s.idfCache term with
  | some v => (v, s)
  | none =>
    let df := docFreq s.documents term
    let idf := lg (1 + ((s.totalDocs : α) - (df : α) + 1 / 2) / ((df : α) + 1 / 2))
    (idf, { s with idfCache := s.idfCache ++ [(term, idf)] })

/-- Inner loop of BM25Search.search for one document: for each query term
    present in the document add idf * tf * (k1 + 1) / (tf + k1 * lenNorm) to
    the running score, threading the IDF cache. -/
def docScoreLoop (lg : α → α) (doc : Document) (docLenNorm : α) :
    List String → α → BM25State α → α × BM25State α
  | [], score, s => (score, s)
  | term :: rest, score, s =>
    if doc.terms.contains term then
      let tf : α := (doc.terms.count term : α)
      let r := calculateIdf lg s term
      docScoreLoop lg doc docLenNorm rest
        (score + r.1 * tf * (bmK1 + 1) / (tf + bmK1 * docLenNorm)) r.2
    else docScoreLoop lg doc docLenNorm rest score s

/-- Per-document body of the scoring loop of BM25Search.search: length
    normalization followed by the term loop, starting from score 0. -/
def docScore (lg : α → α) (avgLen : α) (queryTerms : List String) (doc : Document)
    (s : BM25State α) : α × BM25State α :=
  docScoreLoop lg doc (1 - bmB + bmB * ((doc.length : α) / avgLen)) queryTerms 0 s

/-- Outer loop of BM25Search.search: score every document in index order and
    record the positive scores in insertion order. -/
def searchScoresLoop (lg : α → α) (queryTerms : List String) (avgLen : α) :
    List (String × Document) → List (String × α) → BM25State α →
      List (String × α) × BM25State α
  | [], scores, s => (scores, s)
  | e :: rest, scores, s =>
    let r := docScore lg avgLen queryTerms e.2 s
    searchScoresLoop lg queryTerms avgLen rest
      (if 0 < r.1 then scores ++ [(e.1, r.1)] else scores) r.2

/-- BM25Search._get_relevant_snippet: best five-line window by query-term hit
    count, falling back to the first five lines, truncated to snippetSize
    characters with an ellipsis. -/
def getRelevantSnippet (content : String) (queryTerms : List String) (snippetSize : Nat) : String :=
  let lines := strSplitOn content "\n"
  let best := (List.range lines.length).foldl
    (fun acc i =>
      let window := String.intercalate " "
        ((lines.drop (i - 2)).take (min lines.length (i + 3) - (i - 2)))
      if snippetSize * 2 < window.length then acc
      else
        let score := (queryTerms.filter (fun t => pyIn (pyLower t) (pyLower window))).length
        if acc.1 < score then (score, window) else acc)
    (0, "")
  let bestSnip := if best.2 = "" ∧ lines ≠ [] then String.intercalate " " (lines.take 5) else best.2
  if snippetSize < bestSnip.length then strTake bestSnip snippetSize ++ "..." else bestSnip

/-- BM25Search.search: preprocess the query, score all documents, keep the
    positive scores, sort them by descending score (stably, as Python's sorted
    does), truncate to topK and attach snippets. -/
def search (lg : α → α) (s : BM25State α) (query : String) (topK : Nat) :
    List (String × α × String) × BM25State α :=
  let queryTerms := preprocess query
  let r := searchScoresLoop lg queryTerms s.avgDocLength s.documents [] s
  let ranked := (sortByDesc (fun e : String × α => e.2) r.1).take topK
  (ranked.map (fun e =>
    (e.1, e.2,
      match assocFind? r.2.documents e.1 with
      | some doc => getRelevantSnippet doc.content queryTerms 200
      | none => "")), r.2)

/-- IDF exactly as the specification writes it for claim C3:
    ln(1 + (N - df(t) + 0.5) / (df(t) + 0.5)), as a pure function of the
    corpus (no cache). -/
noncomputable def specIdf (s : BM25State ℝ) (term : String) : ℝ :=
  Real.log (1 + ((s.totalDocs : ℝ) - (docFreq s.documents term : ℝ) + 1 / 2) /
    ((docFreq s.documents term : ℝ) + 1 / 2))

/-- Document score exactly as claim C3 states it: the sum over query tokens t
    present in the document of idf(t) * tf(t) * (k1+1) / (tf(t) + k1 * lenNorm)
    with lenNorm = 1 - b + b * docLen / avgDocLen. -/
noncomputable def specScore (s : BM25State ℝ) (queryTokens : List String) (doc : Document) : ℝ :=
  (queryTokens.map (fun t =>
    if doc.terms.contains t then
      specIdf s t * (doc.terms.count t : ℝ) * (bmK1 + 1) /
        ((doc.terms.count t : ℝ) + bmK1 * (1 - bmB + bmB * ((doc.length : ℝ) / s.avgDocLength)))
    else 0)).sum

/-- Search results exactly as claim C3 states them: every document scored by
    specScore, zero scores excluded, sorted by descending score (stably) and
    truncated to topK. -/
noncomputable def specSearch (s : BM25State ℝ) (query : String) (topK : Nat) :
    List (String × ℝ) :=
  let queryTokens := preprocess query
  (sortByDesc (fun e : String × ℝ => e.2)
    ((s.documents.map (fun e => (e.1, specScore s queryTokens e.2))).filter
      (fun e => e.2 ≠ 0))).take topK

/-- Mutating operations of BM25Search, for stating corpus invariants over
    arbitrary call sequences. -/
inductive BMOp where
  | add (path content : String)
  | remove (path : String)

/-- Run a sequence of add_document / remove_document calls. -/
def applyOps (s : BM25State α) : List BMOp → BM25State α
  | [] => s
  | BMOp.add p c :: rest => applyOps (addDocument s p c) rest
  | BMOp.remove p :: rest => applyOps (removeDocument s p) rest

/-- Consistency of the IDF memo: every cached entry equals the pure IDF of its
    term for the current corpus. -/
def IdfConsistent (s : BM25State ℝ) : Prop :=
  ∀ t v, (t, v) ∈ s.idfCache → v = specIdf s t

/-- States of BM25Search reachable by add/remove sequences satisfy this:
    totalDocs matches the document map, avgDocLength is nonnegative, and the
    IDF memo is consistent. -/
def BMWellFormed (s : BM25State ℝ) : Prop :=
  s.totalDocs = s.documents.length ∧ 0 ≤ s.avgDocLength ∧ IdfConsistent s

/-- A directory listing entry as produced by the manager (type, path, and
    size for files / has_children for directories). -/
inductive DirEntry where
  | file (path : String) (size : Nat)
  | directory (path : String) (hasChildren : Bool)
deriving DecidableEq

/-- The per-file symbol index consulted by _score_files: symbol type mapped to
    the (line number, line text) matches. -/
structure FileIndexEntry where
  symbols : List (String × List (Nat × String))
deriving DecidableEq

/-- What the filesystem holds at one path: the decoded text the file reads as,
    os.path.getmtime, and os.path.getsize. -/
structure FileInfo where
  content : String
  mtime : ℚ
  size : Nat
deriving DecidableEq

/-- The filesystem seen through open/getsize/getmtime, as a finite map from
    absolute path to file state. -/
def FS : Type := List (String × FileInfo)

/-- WorkspaceManager.MAX_CACHE_SIZE (100 MB). -/
def MAX_CACHE_SIZE : Nat := 100 * 1024 * 1024

/-- WorkspaceManager.MAX_CACHE_ENTRIES. -/
def MAX_CACHE_ENTRIES : Nat := 1000

/-- WorkspaceManager.LARGE_FILE_THRESHOLD (1 MB). -/
def LARGE_FILE_THRESHOLD : Nat := 1 * 1024 * 1024

/-- WorkspaceManager.CHUNK_SIZE (1 MB). -/
def CHUNK_SIZE : Nat := 1024 * 1024

/-- Mutable state of a WorkspaceManager: the three caches, the symbol index,
    the cache size counter and the BM25 search index. -/
structure ManagerState (α : Type) where
  contentCache : List (String × (String × ℚ × Nat))
  structureCache : List (String × (List DirEntry × ℚ))
  chunkCache : List (String × List (Nat × String))
  fileIndex : List (String × FileIndexEntry)
  cacheSize : Int
  searchIndex : BM25State α

/-- Eviction loop of _update_cache_size: while the size counter exceeds
    MAX_CACHE_SIZE or the entry count exceeds MAX_CACHE_ENTRIES, pop the
    oldest-inserted entry and subtract its UTF-8 byte length.  On an empty
    cache with the counter still over budget the source would raise
    StopIteration from next(iter(...)); that point is outside every use below
    and is modelled as leaving the loop. -/
def evictLoop : List (String × (String × ℚ × Nat)) → Int → Int × List (String × (String × ℚ × Nat))
  | [], size => (size, [])
  | e :: rest, size =>
    if (MAX_CACHE_SIZE : Int) < size ∨ MAX_CACHE_ENTRIES < (e :: rest).length then
      evictLoop rest (size - (e.2.1.utf8ByteSize : Int))
    else (size, e :: rest)

/-- WorkspaceManager._update_cache_size: on add, grow the byte counter by the
    content's UTF-8 length and run the eviction loop; on remove, shrink the
    counter.  The path argument is unused, as in the source. -/
def updateCacheSize (s : ManagerState α) (path content : String) (isAdd : Bool) : ManagerState α :=
  let size : Int := content.utf8ByteSize
  cond isAdd
    (let r := evictLoop s.contentCache (s.cacheSize + size)
     { s with cacheSize := r.1, contentCache := r.2 })
    { s with cacheSize := s.cacheSize - size }

/-- Approximation of os.path.relpath for a path below the workspace root. -/
def pyRelpath (path root : String) : String :=
  if strStartsWith path (root ++ "/") then strDrop path (root ++ "/").length else path

/-- Small-file read path of _get_file_content after a cache miss: read the
    whole file, account the bytes and store the (content, mtime, size) cache
    entry, then add the document to the search index unless its absolute path
    is already a key there (the source checks the absolute path but indexes
    under the relative path, so the check never fires after a first add). -/
def readSmall (ws : String) (s : ManagerState α) (path : String) (fi : FileInfo) :
    String × ManagerState α :=
  let content := fi.content
  let s1 := updateCacheSize s path content true
  let s2 := { s1 with contentCache := assocSet s1.contentCache path (content, fi.mtime, fi.size) }
  let s3 :=
    if assocHas s2.searchIndex.documents path then s2
    else { s2 with searchIndex := addDocument s2.searchIndex (pyRelpath path ws) content }
  (content, s3)

/-- Chunk loop of _get_file_content for large files: for each requested chunk
    index use the chunk cache when the index is present, stop when the byte
    offset passes the file size, and otherwise read and cache the fixed-size
    window (modelled at character granularity). -/
def readChunksLoop (fi : FileInfo) : Nat → Nat → List (Nat × String) →
    List String × List (Nat × String)
  | _, 0, cm => ([], cm)
  | i, n + 1, cm =>
    match assocFind? cm i with
    | some chunk =>
      let r := readChunksLoop fi (i + 1) n cm
      (chunk :: r.1, r.2)
    | none =>
      if fi.size ≤ i * CHUNK_SIZE then ([], cm)
      else
        let chunk := strTake (strDrop fi.content (i * CHUNK_SIZE)) CHUNK_SIZE
        let r := readChunksLoop fi (i + 1) n (assocSet cm i chunk)
        (chunk :: r.1, r.2)

/-- WorkspaceManager._get_file_content.  A missing file makes getsize raise,
    which the handler turns into "".  A small file (current size under
    LARGE_FILE_THRESHOLD) is served from the content cache only when both the
    stored modification time and the stored size equal the file's current
    ones, and is re-read and re-cached otherwise.  A large file is assembled
    from CHUNK_SIZE windows through the chunk cache and the partial content is
    what gets indexed. -/
def getFileContent (fs : FS) (ws : String) (s : ManagerState α) (path : String)
    (startChunk numChunks : Nat) : String × ManagerState α :=
  match assocFind? fs path with
  | none => ("", s)
  | some fi =>
    if fi.size < LARGE_FILE_THRESHOLD then
      match assocFind? s.contentCache path with
      | some (c, m, sz) =>
        if m = fi.mtime ∧ sz = fi.size then (c, s)
        else readSmall ws s path fi
      | none => readSmall ws s path fi
    else
      let cm := (assocFind? s.chunkCache path).getD []
      let r := readChunksLoop fi startChunk numChunks cm
      let content := String.join r.1
      let s1 := { s with chunkCache := assocSet s.chunkCache path r.2 }
      let s2 :=
        if content ≠ "" ∧ ¬ assocHas s1.searchIndex.documents path then
          { s1 with searchIndex := addDocument s1.searchIndex (pyRelpath path ws) content }
        else s1
      (content, s2)

/-- WorkspaceManager.clear_cache: with a path, drop that path's entries from
    the content cache and the chunk cache; with no path, empty the content,
    structure and chunk caches.  Nothing else is touched. -/
def clearCache (s : ManagerState α) (filePath : Option String) : ManagerState α :=
  match filePath with
  | some p =>
    { s with contentCache := assocErase s.contentCache p
             chunkCache := assocErase s.chunkCache p }
  | none => { s with contentCache := [], structureCache := [], chunkCache := [] }

/-- WorkspaceManager._estimate_tokens: one token per four characters. -/
def estimateTokens (text : String) : Nat :=
  text.length / 4

/-- Python str.splitlines for newline-separated text: like splitting on the
    newline character, but a trailing newline yields no trailing empty line. -/
def pySplitlines (s : String) : List String :=
  let parts := strSplitOn s "\n"
  if parts.getLastD "x" = "" then parts.dropLast else parts

/-- Python list slice l[::step] for step at least one. -/
def takeEvery (step : Nat) : List String → List String
  | [] => []
  | x :: xs => x :: takeEvery step (xs.drop (step - 1))
  termination_by l => l.length
  decreasing_by simp [List.length_drop]; omega

/-- Python list slice l[-n:] for positive n. -/
def lastN (n : Nat) (l : List String) : List String :=
  l.drop (l.length - n)

/-- Retry loop of _truncate_content_for_context: keep the first keepStart and
    last keepEnd lines, sample the middle every step lines when the stride
    exceeds one (flanked by truncation markers), and if the estimate still
    exceeds the budget shrink the kept counts and retry, bottoming out at a
    ten-line head and tail around a single marker. -/
def truncLoop (lines : List String) (maxTokens keepStart keepEnd remaining : Nat) : String :=
  let middle := (lines.take (lines.length - keepEnd)).drop keepStart
  let head := lines.take keepStart
  let body :=
    if middle = [] then head
    else
      let step := middle.length / remaining
      if 1 < step then
        head ++ ["\n... truncated " ++ toString step ++ " lines ...\n"]
          ++ (takeEvery step middle).take remaining
          ++ ["\n... truncated " ++ toString step ++ " lines ...\n"]
      else head ++ middle.take remaining
  let result := String.intercalate "\n" (body ++ lastN keepEnd lines)
  if estimateTokens result ≤ maxTokens then result
  else if 10 < keepStart then
    truncLoop lines maxTokens (keepStart - 10) (keepEnd - 10) (max 20 (remaining - 20))
  else
    String.intercalate "\n"
      (lines.take 10 ++ ["\n... truncated " ++ toString (lines.length - 20) ++ " lines ...\n"]
        ++ lastN 10 lines)
  termination_by keepStart
  decreasing_by omega

/-- WorkspaceManager._truncate_content_for_context with its default budget of
    60000 estimated tokens. -/
def truncateForContext (content : String) : String :=
  if estimateTokens content ≤ 60000 then content
  else truncLoop (pySplitlines content) 60000 50 50 100

/-- No-query branch of get_workspace_files: walk the scanned (absolute,
    relative) pairs, keep a file when it sits directly in the workspace root
    or its current size is under LARGE_FILE_THRESHOLD, read it through
    _get_file_content, and record the truncated content when the read is
    nonempty.  A file whose getsize/read raises is skipped. -/
def workspaceFilesNoQuery (fs : FS) (ws : String) :
    List (String × String) → ManagerState α → List (String × String) →
      List (String × String) × ManagerState α
  | [], s, acc => (acc, s)
  | e :: rest, s, acc =>
    match assocFind? fs e.1 with
    | none => workspaceFilesNoQuery fs ws rest s acc
    | some fi =>
      if pyDirname e.2 = "" ∨ fi.size < LARGE_FILE_THRESHOLD then
        let r := getFileContent fs ws s e.1 0 1
        if r.1 = "" then workspaceFilesNoQuery fs ws rest r.2 acc
        else workspaceFilesNoQuery fs ws rest r.2 (assocSet acc e.2 (truncateForContext r.1))
      else workspaceFilesNoQuery fs ws rest s acc

/-- Extensions granted the primary-file-type bonus in _score_files. -/
def primaryExtensions : List String :=
  [".py", ".js", ".html", ".css", ".json", ".yml", ".yaml"]

/-- WorkspaceManager._score_files for one file: +5 for a query word in the
    relative path, +3 for a query word in the first 4 KiB of content, +2 for
    sitting at the workspace root, +1 for a primary extension, and +2 for each
    indexed symbol kind with a matching line.  Matching is case-insensitive
    substring containment of any whitespace-split query word.  A file whose
    open raises is skipped (none). -/
def scoreFile (fs : FS) (s : ManagerState α) (query : String) (path rel : String) :
    Option Nat :=
  match assocFind? fs path with
  | none => none
  | some fi =>
    let qwords := pySplitWs (pyLower query)
    let nameScore := if qwords.any (fun t => pyIn t (pyLower rel)) then 5 else 0
    let preview := strTake fi.content 4096
    let contentScore := if qwords.any (fun t => pyIn t (pyLower preview)) then 3 else 0
    let rootScore := if pyDirname rel = "" then 2 else 0
    let typeScore := if primaryExtensions.any (fun e => strEndsWith rel e) then 1 else 0
    let symbols : List (String × List (Nat × String)) :=
      match assocFind? s.fileIndex path with
      | none => []
      | some idx => idx.symbols
    let symbolScore := 2 * symbols.countP
      (fun sl => qwords.any (fun t => sl.2.any (fun sym => pyIn t (pyLower sym.2))))
    some (nameScore + contentScore + rootScore + typeScore + symbolScore)

/-- WorkspaceManager._score_files: keep the files whose score is positive, in
    scan order, with their scores. -/
def scoreFiles (fs : FS) (s : ManagerState α) (files : List (String × String)) (query : String) :
    List (String × String × Nat) :=
  files.filterMap (fun e =>
    match scoreFile fs s query e.1 e.2 with
    | none => none
    | some sc => if 0 < sc then some (e.1, e.2, sc) else none)

/-- Content loading over the top-ranked files (_load_file_content applied in
    order): files whose read comes back empty are dropped, the rest are stored
    under their relative path with truncated content. -/
def loadTopFiles (fs : FS) (ws : String) :
    List (String × String × Nat) → ManagerState α → List (String × String) →
      List (String × String) × ManagerState α
  | [], s, acc => (acc, s)
  | e :: rest, s, acc =>
    let r := getFileContent fs ws s e.1 0 1
    if r.1 = "" then loadTopFiles fs ws rest r.2 acc
    else loadTopFiles fs ws rest r.2 (assocSet acc e.2.1 (truncateForContext r.1))

/-- Query branch of get_workspace_files: score the scanned files, sort by
    descending score (stably), keep the top ten, and load their contents. -/
def workspaceFilesQuery (fs : FS) (ws : String) (s : ManagerState α)
    (files : List (String × String)) (query : String) :
    List (String × String) × ManagerState α :=
  let scored := scoreFiles fs s files query
  let top := (sortByDesc (fun e : String × String × Nat => e.2.2) scored).take 10
  loadTopFiles fs ws top s []

/-- WorkspaceManager.get_workspace_files over an already-scanned file list:
    an absent or empty query takes the root-or-small default branch, anything
    else the scored branch. -/
def getWorkspaceFiles (fs : FS) (ws : String) (s : ManagerState α)
    (files : List (String × String)) (query : Option String) :
    List (String × String) × ManagerState α :=
  match query with
  | none => workspaceFilesNoQuery fs ws files s []
  | some q =>
    if q = "" then workspaceFilesNoQuery fs ws files s []
    else workspaceFilesQuery fs ws s files q

/-- Lengths of the maximal digit runs of a character list; the first argument
    is the length of the run in progress. -/
def digitRunsAux : Nat → List Char → List Nat
  | run, [] => if run = 0 then [] else [run]
  | run, c :: cs =>
    if c.isDigit then digitRunsAux (run + 1) cs
    else if run = 0 then digitRunsAux 0 cs
    else run :: digitRunsAux 0 cs

/-- Token estimator as claim C4 words it (the source implements something
    else): 1.3 per whitespace-split word, one per listed punctuation
    character, one per newline, and each maximal digit run contributing its
    length divided by 2.5. -/
def claimTokenEstimate (text : String) : ℚ :=
  let punct : List Char := ['.', ',', '!', '?', '(', ')', '[', ']', '{', '}', ':', ';']
  (13 / 10 : ℚ) * ((pySplitWs text).length : ℚ)
    + ((text.data.filter (fun c => punct.contains c)).length : ℚ)
    + ((text.data.filter (fun c => c = '\n')).length : ℚ)
    + ((digitRunsAux 0 text.data).map (fun r => (r : ℚ) / (5 / 2))).sum

/-- Python os.path.isabs for POSIX paths. -/
def pyIsAbs (p : String) : Bool :=
  strStartsWith p "/"

/-- Python os.path.join for two components: an absolute second component
    replaces the first. -/
def pyJoin (a b : String) : String :=
  if pyIsAbs b then b
  else if strEndsWith a "/" then a ++ b
  else a ++ "/" ++ b

/-- Path-component normalization: drop empty and dot components and let a
    dot-dot pop the previous component.  The accumulator holds the processed
    components in reverse. -/
def normParts : List String → List String → List String
  | acc, [] => acc.reverse
  | acc, c :: rest =>
    if c = ".." then normParts (acc.drop 1) rest
    else normParts (c :: acc) rest

/-- Python os.path.abspath for an already-absolute POSIX path: pure
    normalization of dots and dot-dots. -/
def normPath (p : String) : String :=
  "/" ++ String.intercalate "/"
    (normParts [] ((strSplitOn p "/").filter (fun c => ¬ (c = "" ∨ c = "."))))

/-- A filesystem tree for directory expansion: normalized absolute paths of
    the directories, and of the files with their sizes. -/
structure DirFS where
  dirs : List String
  files : List (String × Nat)

/-- Python os.path.exists: the operating system resolves dot-dots, so the
    lookup is on the normalized path. -/
def pyExists (fs : DirFS) (p : String) : Bool :=
  fs.dirs.contains (normPath p) || fs.files.any (fun e => e.1 = normPath p)

/-- Python os.path.isdir on the normalized path. -/
def pyIsDir (fs : DirFS) (p : String) : Bool :=
  fs.dirs.contains (normPath p)

/-- Final component of a normalized path (os.scandir entry name, equal to the
    path relative to the scanned directory for direct children). -/
def entryName (p : String) : String :=
  (strSplitOn p "/").getLastD ""

/-- Parent of a normalized path. -/
def parentPath (p : String) : String :=
  "/" ++ String.intercalate "/" ((strSplitOn p "/").filter (fun c => c ≠ "")).dropLast

/-- Children of a directory under os.scandir: the directory entries first,
    then the file entries, each paired with an is-directory flag and a size. -/
def scanDir (fs : DirFS) (d : String) : List (String × Bool × Nat) :=
  (fs.dirs.filter (fun p => parentPath p = normPath d ∧ p ≠ normPath d)).map
      (fun p => (p, true, 0))
    ++ (fs.files.filter (fun e => parentPath e.1 = normPath d)).map
      (fun e => (e.1, false, e.2))

/-- WorkspaceManager.SKIP_FOLDERS. -/
def SKIP_FOLDERS : List String :=
  [".git", "node_modules", "__pycache__", "venv", ".venv", "env", ".env", "dist",
   "build", "target", "vendor", ".idea", ".vscode", "coverage", ".next", ".nuxt",
   ".output", "tmp", "temp"]

/-- WorkspaceManager.SKIP_EXTENSIONS (the .db/.log/.cache set united with the
    binary extensions). -/
def SKIP_EXTENSIONS : List String :=
  [".db", ".log", ".cache", ".pyc", ".pyo", ".pyd", ".so", ".dll", ".exe", ".bin"]

/-- Result record of expand_directory. -/
structure ExpandResult where
  items : List DirEntry
  totalItems : Nat
  hasMore : Bool
deriving DecidableEq

/-- Directory-entry construction of expand_directory for one scandir entry:
    skip hidden names, skipped folders, gitignored names and skipped
    extensions; files carry their size, directories a single-level
    has-children peek that applies the hidden/skip-folder filter. -/
def expandEntry (fs : DirFS) (shouldIgnore : String → Bool) (child : String × Bool × Nat) :
    Option DirEntry :=
  let name := entryName child.1
  if strStartsWith name "." ∨ (child.2.1 ∧ SKIP_FOLDERS.contains name) then none
  else if shouldIgnore name then none
  else if ¬ child.2.1 then
    if SKIP_EXTENSIONS.any (fun ext => strEndsWith name ext) then none
    else some (DirEntry.file name child.2.2)
  else
    let hasChildren := (scanDir fs child.1).any
      (fun c => ¬ (strStartsWith (entryName c.1) "." ∨ (c.2.1 ∧ SKIP_FOLDERS.contains (entryName c.1))))
    some (DirEntry.directory name hasChildren)

/-- Sort key of expand_directory: directories before files, then the
    lowercased path, compared lexicographically. -/
def entrySortKey (e : DirEntry) : Lex (Bool × String) :=
  match e with
  | DirEntry.file p _ => (true, pyLower p)
  | DirEntry.directory p _ => (false, pyLower p)

/-- WorkspaceManager.expand_directory.  An absolute argument is prefix-checked
    against the workspace root after normalization; a relative argument is
    joined to the root with no outside-workspace check.  A missing target and
    a non-directory target raise named ValueErrors.  Entries are filtered,
    sorted directories-first then case-insensitively, and paginated. -/
def expandDirectory (fs : DirFS) (shouldIgnore : String → Bool)
    (dirPath workspaceDir : String) (pageSize page : Nat) :
    Except String ExpandResult :=
  if pyIsAbs dirPath ∧ ¬ strStartsWith (normPath dirPath) (normPath workspaceDir) then
    Except.error "Path is outside workspace directory"
  else
    let absPath := if pyIsAbs dirPath then dirPath else pyJoin workspaceDir dirPath
    if ¬ pyExists fs absPath then Except.error ("Directory not found: " ++ dirPath)
    else if ¬ pyIsDir fs absPath then Except.error ("Not a directory: " ++ dirPath)
    else
      let entries := sortByAsc entrySortKey
        ((scanDir fs absPath).filterMap (expandEntry fs shouldIgnore))
      let startIdx := (page - 1) * pageSize
      Except.ok
        { items := (entries.drop startIdx).take pageSize
          totalItems := entries.length
          hasMore := startIdx + pageSize < entries.length }

/-- Which of the three named expand_directory user errors a result is:
    0 the outside-workspace rejection, 1 the not-found rejection, 2 the
    not-a-directory rejection. -/
def expandErrorKind (r : Except String ExpandResult) : Option Nat :=
  match r with
  | Except.ok _ => none
  | Except.error m =>
    if m = "Path is outside workspace directory" then some 0
    else if strStartsWith m "Directory not found" then some 1
    else if strStartsWith m "Not a directory" then some 2
    else none

/-- What one _get_file_content call returns for a present file when every
    cache entry agrees with the filesystem: the full content of a small file,
    the first chunk window of a large one. -/
def readValue (fs : FS) (path : String) : String :=
  match assocFind? fs path with
  | none => ""
  | some fi =>
    if fi.size < LARGE_FILE_THRESHOLD then fi.content
    else strTake (strDrop fi.content 0) CHUNK_SIZE

/-- Agreement of the manager's caches with the filesystem: every content-cache
    entry is the current content, mtime and size of its file, and every cached
    chunk is the corresponding window of the current content.  Fresh managers
    satisfy this, and reads preserve it. -/
def CacheConsistent (fs : FS) (s : ManagerState α) : Prop :=
  (∀ e ∈ s.contentCache, ∃ fi, assocFind? fs e.1 = some fi ∧
    e.2 = (fi.content, fi.mtime, fi.size)) ∧
  (∀ pe ∈ s.chunkCache, ∀ ec ∈ pe.2, ∃ fi, assocFind? fs pe.1 = some fi ∧
    ec.2 = strTake (strDrop fi.content (ec.1 * CHUNK_SIZE)) CHUNK_SIZE)

/-- The no-query selection as a pure function of the filesystem and the scan
    list, the shape claim C5 describes once its threshold is corrected: keep a
    scanned file when it sits at the workspace root or is under
    LARGE_FILE_THRESHOLD and its read content is nonempty, independent of any
    cache state. -/
def noQuerySpec (fs : FS) : List (String × String) → List (String × String) →
    List (String × String)
  | [], acc => acc
  | e :: rest, acc =>
    match assocFind? fs e.1 with
    | none => noQuerySpec fs rest acc
    | some fi =>
      if pyDirname e.2 = "" ∨ fi.size < LARGE_FILE_THRESHOLD then
        if readValue fs e.1 = "" then noQuerySpec fs rest acc
        else noQuerySpec fs rest (assocSet acc e.2 (truncateForContext (readValue fs e.1)))
      else noQuerySpec fs rest acc

/-- The selection predicate of claim C5 as worded: directly in the workspace
    root, or smaller than 50 KiB. -/
def claimNoQuerySelect (rel : String) (size : Nat) : Prop :=
  pyDirname rel = "" ∨ size < 50 * 1024

/-- Corpus invariant of BM25Search maintained by add_document/remove_document:
    totalDocs matches the document map, the IDF cache is empty, and
    avgDocLength is the mean stored length (zero on an empty corpus). -/
def BMCorpusInv (s : BM25State α) : Prop :=
  s.totalDocs = s.documents.length ∧ s.idfCache = [] ∧
    s.avgDocLength =
      (if s.documents.length = 0 then 0
       else (sumLengths s.documents : α) / (s.documents.length : α))

/-- Sum of the UTF-8 byte lengths of the cached contents, the quantity the
    _cache_size counter tracks. -/
def cacheBytes (l : List (String × (String × ℚ × Nat))) : Int :=
  (l.map (fun e => (e.2.1.utf8ByteSize : Int))).sum

/-- A manager state with empty caches and a fresh index, over the rationals
    (used for concrete instances). -/
def mgr0 : ManagerState ℚ :=
  { contentCache := [], structureCache := [], chunkCache := [], fileIndex := []
    cacheSize := 0, searchIndex := initBM25 }

/-- Four hundred letters with no punctuation, digits or newlines (claim C4). -/
def c4Text : String :=
  String.mk (List.replicate 400 'a')

/-- Filesystem with one small file whose cache entry is stale (claim C1): the
    file was rewritten, so the current mtime differs from the cached one. -/
def fsC1 : FS :=
  [("/ws/a.py", { content := "new content", mtime := 7, size := 11 })]

/-- Manager whose cached entry for /ws/a.py has a stale mtime. -/
def mgrC1stale : ManagerState ℚ :=
  { mgr0 with contentCache := [("/ws/a.py", ("old content", 3, 11))], cacheSize := 11 }

/-- Manager whose cached entry for /ws/a.py matches the current mtime and
    size. -/
def mgrC1fresh : ManagerState ℚ :=
  { mgr0 with contentCache := [("/ws/a.py", ("cached", 7, 11))], cacheSize := 6 }

/-- Filesystem with a 100 KiB file inside a subdirectory (claim C5). -/
def fsC5 : FS :=
  [("/ws/sub/f.txt", { content := "hello", mtime := 1, size := 102400 })]

/-- Filesystem of the claim C6 scenario: parser.py holds the words json and
    parse, style.css holds no query word. -/
def fsC6 : FS :=
  [("/ws/parser.py", { content := "import json\ndef parse(x): pass\n", mtime := 1, size := 31 }),
   ("/ws/style.css", { content := "body { color: red }", mtime := 1, size := 19 })]

/-- Scan result of the claim C6 scenario. -/
def filesC6 : List (String × String) :=
  [("/ws/parser.py", "parser.py"), ("/ws/style.css", "style.css")]

/-- A content cache holding MAX_CACHE_ENTRIES one-byte entries under distinct
    keys (claim C7): the state after caching one thousand one-byte files. -/
def fullCache : List (String × (String × ℚ × Nat)) :=
  (List.range MAX_CACHE_ENTRIES).map
    (fun i => (String.mk (List.replicate (i + 1) 'a'), ("x", (0 : ℚ), 1)))

/-- Manager whose content cache is exactly at the entry bound with an accurate
    byte counter. -/
def mgrC7full : ManagerState ℚ :=
  { mgr0 with contentCache := fullCache, cacheSize := MAX_CACHE_ENTRIES }

/-- Small manager state with one two-byte cache entry and an accurate counter
    (claim C7 witness). -/
def mgrC7small : ManagerState ℚ :=
  { mgr0 with contentCache := [("a", ("xy", 0, 2))], cacheSize := 2 }

/-- Directory tree for claim C9: a workspace at /ws and a sibling directory
    /etc holding one file. -/
def dirFsC9 : DirFS :=
  { dirs := ["/ws", "/etc"], files := [("/etc/passwd", 10)] }

/-- Corpus of claim C8's counterexample, built through add_document: document
    A repeats the term aa, document B holds one aa and two bb. -/
noncomputable def cex8 : BM25State ℝ :=
  addDocument (addDocument initBM25 "A" "aa aa aa") "B" "aa bb bb"

/-- Document A of the C8 counterexample as stored by add_document. -/
def docA8 : Document :=
  { path := "A", content := "aa aa aa", terms := ["aa", "aa", "aa"], length := 3 }

/-- Document B of the C8 counterexample as stored by add_document. -/
def docB8 : Document :=
  { path := "B", content := "aa bb bb", terms := ["aa", "bb", "bb"], length := 3 }

/-- Score the search assigns document A for the query aa bb on cex8. -/
noncomputable def scoreA8 : ℝ :=
  Real.log (6 / 5) * (5 / 3)

/-- Score the search assigns document B for the query aa bb on cex8. -/
noncomputable def scoreB8 : ℝ :=
  Real.log (6 / 5) + Real.log 2 * (10 / 7)

/-- One-document corpus over the reals used to witness the search refinement:
    a single document of two aa tokens with consistent derived fields. -/
noncomputable def bmW : BM25State ℝ :=
  addDocument initBM25 "A" "aa aa"

theorem assocFind?_erase_self {κ β : Type} [DecidableEq κ] (l : List (κ × β)) (k : κ) :
    assocFind? (assocErase l k) k = none := by
  induction l with
  | nil => rfl
  | cons e rest ih =>
    by_cases h : e.1 = k
    · simpa [assocErase, List.filter_cons, h] using ih
    · simpa [assocErase, List.filter_cons, assocFind?, h] using ih

theorem assocFind?_erase_ne {κ β : Type} [DecidableEq κ] (l : List (κ × β)) (k q : κ)
    (h : q ≠ k) : assocFind? (assocErase l k) q = assocFind? l q := by
  induction l with
  | nil => rfl
  | cons e rest ih =>
    simp only [assocErase, List.filter_cons] at ih ⊢
    by_cases he : e.1 = k
    · have hne : ¬ e.1 = q := fun hq => h (hq.symm.trans he)
      rw [if_neg (by simp [he]), ih, assocFind?, if_neg hne]
    · rw [if_pos (by simp [he]), assocFind?, assocFind?]
      by_cases heq : e.1 = q
      · rw [if_pos heq, if_pos heq]
      · rw [if_neg heq, if_neg heq, ih]

/-- C10: clear_cache with a path removes exactly that path's entries from the
    content cache and the chunk cache, leaving the structure cache, every
    other path's entries and the search index untouched; clear_cache with no
    argument empties the three caches and leaves the search index untouched. -/
theorem clearCache_frame (s : ManagerState α) (p : String) :
    assocFind? (clearCache s (some p)).contentCache p = none ∧
    assocFind? (clearCache s (some p)).chunkCache p = none ∧
    (∀ q, q ≠ p → assocFind? (clearCache s (some p)).contentCache q =
      assocFind? s.contentCache q) ∧
    (∀ q, q ≠ p → assocFind? (clearCache s (some p)).chunkCache q =
      assocFind? s.chunkCache q) ∧
    (clearCache s (some p)).structureCache = s.structureCache ∧
    (clearCache s (some p)).searchIndex = s.searchIndex ∧
    (clearCache s none).contentCache = [] ∧
    (clearCache s none).structureCache = [] ∧
    (clearCache s none).chunkCache = [] ∧
    (clearCache s none).searchIndex = s.searchIndex := by
  refine ⟨assocFind?_erase_self _ _, assocFind?_erase_self _ _,
    fun q hq => assocFind?_erase_ne _ _ _ hq,
    fun q hq => assocFind?_erase_ne _ _ _ hq, rfl, rfl, rfl, rfl, rfl, rfl⟩

theorem clearCache_frame_witness :
    assocFind? (clearCache mgrC1stale (some "/ws/a.py")).contentCache "/ws/a.py" = none ∧
    assocFind? (clearCache mgrC1stale (some "/ws/a.py")).contentCache "b" =
      assocFind? mgrC1stale.contentCache "b" :=
  ⟨(clearCache_frame mgrC1stale "/ws/a.py").1,
   (clearCache_frame mgrC1stale "/ws/a.py").2.2.1 "b" (by decide)⟩

/-- C4 counterexample: on four hundred letters the source's estimator returns
    100 while the formula the claim states yields 1.3; they are nowhere near
    equal (off by a factor beyond ten). -/
theorem estimateTokens_cex :
    estimateTokens c4Text = 100 ∧ claimTokenEstimate c4Text = 13 / 10 ∧
    (10 : ℚ) * claimTokenEstimate c4Text < (estimateTokens c4Text : ℚ) := by
  have h0 : claimTokenEstimate c4Text = 13 / 10 := by
    simp only [claimTokenEstimate]
    rw [show (pySplitWs c4Text).length = 1 from by decide]
    rw [show (c4Text.data.filter (fun c =>
      ['.', ',', '!', '?', '(', ')', '[', ']', '{', '}', ':', ';'].contains c)).length = 0
      from by decide]
    rw [show (c4Text.data.filter (fun c => decide (c = '\n'))).length = 0 from by decide]
    rw [show digitRunsAux 0 c4Text.data = [] from by decide]
    norm_num
  refine ⟨by decide, h0, ?_⟩
  rw [h0, show estimateTokens c4Text = 100 from by decide]
  norm_num

/-- C4 as the code has it: the token estimate is the character count divided
    by four, rounded down. -/
theorem estimateTokens_amended (t : String) :
    4 * estimateTokens t ≤ t.length ∧ t.length < 4 * estimateTokens t + 4 := by
  unfold estimateTokens
  omega

/-- C1: for a file currently below the large-file threshold, a cached entry is
    returned only when both its stored modification time and its stored size
    equal the file's current ones; on a size change or an mtime change the
    call returns the freshly read content. -/
theorem getFileContent_cache_coherence (fs : FS) (ws : String) (s : ManagerState α)
    (path : String) (fi : FileInfo) (c : String) (m : ℚ) (sz : Nat)
    (hfs : assocFind? fs path = some fi) (hsmall : fi.size < LARGE_FILE_THRESHOLD)
    (hcache : assocFind? s.contentCache path = some (c, m, sz)) :
    ((m = fi.mtime ∧ sz = fi.size) → (getFileContent fs ws s path 0 1).1 = c) ∧
    (sz ≠ fi.size → (getFileContent fs ws s path 0 1).1 = fi.content) ∧
    (m ≠ fi.mtime → (getFileContent fs ws s path 0 1).1 = fi.content) := by
  unfold getFileContent
  rw [hfs]
  simp only [hcache, if_pos hsmall]
  refine ⟨fun hmatch => ?_, fun hsz => ?_, fun hm => ?_⟩
  · rw [if_pos hmatch]
  · rw [if_neg (fun h => hsz h.2)]
    rfl
  · rw [if_neg (fun h => hm h.1)]
    rfl

theorem getFileContent_cache_coherence_witness :
    (getFileContent fsC1 "/ws" mgrC1stale "/ws/a.py" 0 1).1 = "new content" ∧
    (getFileContent fsC1 "/ws" mgrC1fresh "/ws/a.py" 0 1).1 = "cached" :=
  ⟨(getFileContent_cache_coherence fsC1 "/ws" mgrC1stale "/ws/a.py"
      { content := "new content", mtime := 7, size := 11 } "old content" 3 11
      (by decide) (by decide) (by decide)).2.2 (by decide),
   (getFileContent_cache_coherence fsC1 "/ws" mgrC1fresh "/ws/a.py"
      { content := "new content", mtime := 7, size := 11 } "cached" 7 11
      (by decide) (by decide) (by decide)).1 (by decide)⟩

theorem strStartsWith_append (a b pre : String) (h : pre.data <+: a.data) :
    strStartsWith (a ++ b) pre = true := by
  simp only [strStartsWith, String.data_append, List.isPrefixOf_iff_prefix]
  exact h.trans (List.prefix_append _ _)

theorem append_ne_of_head (a b t : String) (c1 c2 : Char)
    (ha : a.data.head? = some c1) (ht : t.data.head? = some c2) (hne : c1 ≠ c2) :
    a ++ b ≠ t := by
  intro h
  have hd := congrArg String.data h
  rw [String.data_append] at hd
  rw [← hd, List.head?_append, ha] at ht
  simp only [Option.or_some, Option.some.injEq] at ht
  exact hne ht

theorem strStartsWith_ne_head (a b pre : String) (c1 c2 : Char)
    (ha : a.data.head? = some c1) (hp : pre.data.head? = some c2) (hne : c2 ≠ c1) :
    strStartsWith (a ++ b) pre = false := by
  simp only [strStartsWith, String.data_append]
  cases hpre : pre.data with
  | nil => rw [hpre] at hp; simp at hp
  | cons x xs =>
    cases hadata : a.data with
    | nil => rw [hadata] at ha; simp at ha
    | cons y ys =>
      rw [hpre] at hp
      rw [hadata] at ha
      simp only [List.head?_cons, Option.some.injEq] at hp ha
      subst hp ha
      simp [List.isPrefixOf, hne]

theorem errorKind_notfound (dp : String) :
    expandErrorKind (Except.error ("Directory not found: " ++ dp)) = some 1 := by
  simp [expandErrorKind,
    append_ne_of_head "Directory not found: " dp "Path is outside workspace directory" 'D' 'P'
      (by decide) (by decide) (by decide),
    strStartsWith_append "Directory not found: " dp "Directory not found" (by decide)]

theorem errorKind_notdir (dp : String) :
    expandErrorKind (Except.error ("Not a directory: " ++ dp)) = some 2 := by
  simp [expandErrorKind,
    append_ne_of_head "Not a directory: " dp "Path is outside workspace directory" 'N' 'P'
      (by decide) (by decide) (by decide),
    strStartsWith_ne_head "Not a directory: " dp "Directory not found" 'N' 'D'
      (by decide) (by decide) (by decide),
    strStartsWith_append "Not a directory: " dp "Not a directory" (by decide)]

/-- C9 amended: only an absolute dir_path gets the outside-workspace check (a
    string-prefix test on normalized paths); a relative dir_path is joined to
    the workspace with no such check, so dot-dot traversal is answered with a
    listing; a missing target raises the named not-found ValueError and a
    non-directory target the named not-a-directory ValueError, in that
    order. -/
theorem expandDirectory_error_cases (fs : DirFS) (ign : String → Bool)
    (dp ws : String) (pageSize page : Nat) :
    expandErrorKind (expandDirectory fs ign dp ws pageSize page) =
      (if pyIsAbs dp ∧ ¬ strStartsWith (normPath dp) (normPath ws) then some 0
       else if ¬ pyExists fs (if pyIsAbs dp then dp else pyJoin ws dp) then some 1
       else if ¬ pyIsDir fs (if pyIsAbs dp then dp else pyJoin ws dp) then some 2
       else none) := by
  simp only [expandDirectory]
  split_ifs with h1 h2 h3
  all_goals first
    | rfl
    | exact errorKind_notfound dp
    | exact errorKind_notdir dp

/-- C9 counterexample: the relative argument ../etc resolves outside the /ws
    workspace, yet expand_directory raises nothing and returns the listing of
    /etc. -/
theorem expandDirectory_traversal_cex :
    normPath (pyJoin "/ws" "../etc") = "/etc" ∧
    strStartsWith (normPath (pyJoin "/ws" "../etc")) (normPath "/ws") = false ∧
    (expandDirectory dirFsC9 (fun _ => false) "../etc" "/ws" 100 1).toOption =
      some { items := [DirEntry.file "passwd" 10], totalItems := 1, hasMore := false } := by
  refine ⟨by decide, by decide, by decide⟩

theorem evictLoop_within (l : List (String × (String × ℚ × Nat))) (size : Int)
    (h1 : size ≤ (MAX_CACHE_SIZE : Int)) (h2 : l.length ≤ MAX_CACHE_ENTRIES) :
    evictLoop l size = (size, l) := by
  cases l with
  | nil => rfl
  | cons e rest =>
    rw [evictLoop, if_neg]
    exact not_or.2 ⟨not_lt.2 h1, not_lt.2 h2⟩

theorem cacheBytes_cons (e : String × (String × ℚ × Nat)) (l : List (String × (String × ℚ × Nat))) :
    cacheBytes (e :: l) = (e.2.1.utf8ByteSize : Int) + cacheBytes l := by
  simp [cacheBytes]

theorem evictLoop_spec (B : Int) (hB : B ≤ (MAX_CACHE_SIZE : Int)) :
    ∀ (l : List (String × (String × ℚ × Nat))) (size : Int),
      size = B + cacheBytes l →
      (evictLoop l size).1 ≤ (MAX_CACHE_SIZE : Int) ∧
      (evictLoop l size).2.length ≤ MAX_CACHE_ENTRIES ∧
      ∃ k, (evictLoop l size).2 = l.drop k := by
  intro l
  induction l with
  | nil =>
    intro size hsize
    have hz : cacheBytes [] = 0 := rfl
    rw [hz, add_zero] at hsize
    exact ⟨by simpa [evictLoop, hsize] using hB, by simp [evictLoop], 0, rfl⟩
  | cons e rest ih =>
    intro size hsize
    rw [evictLoop]
    split_ifs with hcond
    · have hrec : size - (e.2.1.utf8ByteSize : Int) = B + cacheBytes rest := by
        rw [hsize, cacheBytes_cons]
        ring
      obtain ⟨ha, hb, k, hk⟩ := ih _ hrec
      exact ⟨ha, hb, k + 1, by simpa using hk⟩
    · rw [not_or, not_lt, not_lt] at hcond
      exact ⟨hcond.1, hcond.2, 0, rfl⟩

theorem assocSet_length_le {κ β : Type} [DecidableEq κ] (l : List (κ × β)) (k : κ) (v : β) :
    (assocSet l k v).length ≤ l.length + 1 := by
  induction l with
  | nil => simp [assocSet]
  | cons e rest ih =>
    rw [assocSet]
    split_ifs
    · simp
    · simpa using Nat.succ_le_succ ih

theorem assocSet_length_of_not_found {κ β : Type} [DecidableEq κ] (l : List (κ × β)) (k : κ)
    (v : β) (h : assocFind? l k = none) : (assocSet l k v).length = l.length + 1 := by
  induction l with
  | nil => rfl
  | cons e rest ih =>
    rw [assocFind?] at h
    rw [assocSet]
    split_ifs with he
    · rw [if_pos he] at h
      simp at h
    · rw [if_neg he] at h
      simp [ih h]

theorem assocFind?_eq_none {κ β : Type} [DecidableEq κ] (l : List (κ × β)) (k : κ)
    (h : ∀ e ∈ l, e.1 ≠ k) : assocFind? l k = none := by
  induction l with
  | nil => rfl
  | cons e rest ih =>
    rw [assocFind?, if_neg (h e (by simp))]
    exact ih (fun x hx => h x (by simp [hx]))

theorem replicate_a_ne (n : Nat) : String.mk (List.replicate (n + 1) 'a') ≠ "b" := by
  intro h
  have hd : List.replicate (n + 1) 'a' = "b".data := congrArg String.data h
  rw [show "b".data = ['b'] from rfl, List.replicate_succ] at hd
  injection hd with h1 h2
  exact absurd h1 (by decide)

theorem fullCache_length : fullCache.length = MAX_CACHE_ENTRIES := by
  simp [fullCache]

theorem fullCache_find_none : assocFind? fullCache "b" = none := by
  refine assocFind?_eq_none _ _ ?_
  intro e he
  simp only [fullCache, List.mem_map, List.mem_range] at he
  obtain ⟨i, _, rfl⟩ := he
  exact replicate_a_ne i

theorem fullCache_bytes : cacheBytes fullCache = MAX_CACHE_ENTRIES := by
  rw [cacheBytes, fullCache, List.map_map]
  have : ((fun e : String × (String × ℚ × Nat) => (e.2.1.utf8ByteSize : Int)) ∘
      (fun i => (String.mk (List.replicate (i + 1) 'a'), ("x", (0 : ℚ), 1)))) =
      (fun _ => (1 : Int)) := by
    funext i
    rfl
  rw [this]
  simp [List.map_const']

/-- C7 counterexample: with the content cache exactly at MAX_CACHE_ENTRIES
    entries, storing one more small file evicts nothing (the eviction loop runs
    before the insert and its count check already passes), so after the
    insertion the cache holds MAX_CACHE_ENTRIES + 1 entries and the claimed
    entry bound is violated. -/
theorem cacheInsert_entry_bound_cex :
    (readSmall "/ws" mgrC7full "b" { content := "xyz", mtime := 0, size := 3 }).2.contentCache.length
      = MAX_CACHE_ENTRIES + 1 := by
  have hev : evictLoop mgrC7full.contentCache (mgrC7full.cacheSize + ("xyz".utf8ByteSize : Int)) =
      (mgrC7full.cacheSize + ("xyz".utf8ByteSize : Int), mgrC7full.contentCache) := by
    refine evictLoop_within _ _ (by decide) ?_
    show fullCache.length ≤ MAX_CACHE_ENTRIES
    rw [fullCache_length]
  simp only [readSmall, updateCacheSize, cond_true, hev]
  rw [apply_ite ManagerState.contentCache, ite_self]
  show (assocSet fullCache "b" ("xyz", (0 : ℚ), 3)).length = MAX_CACHE_ENTRIES + 1
  rw [assocSet_length_of_not_found _ _ _ fullCache_find_none, fullCache_length]

/-- C7 amended: an insertion first grows the byte counter, then evicts
    oldest-inserted entries (as many as needed, not exactly one) until both
    bounds pass, and only then stores the new entry; hence after an insertion
    the byte counter is within MAX_CACHE_SIZE (when the counter was accurate
    and the new content alone fits) but the entry count can reach
    MAX_CACHE_ENTRIES + 1, and the surviving old entries are a tail of the
    insertion order. -/
theorem cacheInsert_bounds (ws : String) (s : ManagerState α) (path : String) (fi : FileInfo)
    (hacct : s.cacheSize = cacheBytes s.contentCache)
    (hfit : (fi.content.utf8ByteSize : Int) ≤ (MAX_CACHE_SIZE : Int)) :
    (readSmall ws s path fi).2.cacheSize ≤ (MAX_CACHE_SIZE : Int) ∧
    (readSmall ws s path fi).2.contentCache.length ≤ MAX_CACHE_ENTRIES + 1 ∧
    ∃ k, (readSmall ws s path fi).2.contentCache =
      assocSet (s.contentCache.drop k) path (fi.content, fi.mtime, fi.size) := by
  obtain ⟨h1, h2, k, hk⟩ := evictLoop_spec (fi.content.utf8ByteSize : Int) hfit
    s.contentCache (s.cacheSize + (fi.content.utf8ByteSize : Int))
    (by rw [hacct]; ring)
  simp only [readSmall, updateCacheSize, cond_true]
  rw [apply_ite ManagerState.cacheSize, apply_ite ManagerState.contentCache]
  simp only [ite_self]
  refine ⟨h1, ?_, k, by rw [hk]⟩
  rw [hk]
  calc (assocSet (s.contentCache.drop k) path (fi.content, fi.mtime, fi.size)).length
      ≤ (s.contentCache.drop k).length + 1 := assocSet_length_le _ _ _
    _ ≤ MAX_CACHE_ENTRIES + 1 := by rw [← hk]; omega

theorem cacheInsert_bounds_witness :
    (readSmall "/ws" mgrC7small "c" { content := "zzz", mtime := 0, size := 3 }).2.cacheSize
        ≤ (MAX_CACHE_SIZE : Int) ∧
      (readSmall "/ws" mgrC7small "c"
        { content := "zzz", mtime := 0, size := 3 }).2.contentCache.length
        ≤ MAX_CACHE_ENTRIES + 1 :=
  ⟨(cacheInsert_bounds "/ws" mgrC7small "c" { content := "zzz", mtime := 0, size := 3 }
      (by decide) (by decide)).1,
   (cacheInsert_bounds "/ws" mgrC7small "c" { content := "zzz", mtime := 0, size := 3 }
      (by decide) (by decide)).2.1⟩

theorem assocFind?_mem {κ β : Type} [DecidableEq κ] {l : List (κ × β)} {k : κ} {v : β}
    (h : assocFind? l k = some v) : (k, v) ∈ l := by
  induction l with
  | nil => simp [assocFind?] at h
  | cons e rest ih =>
    rw [assocFind?] at h
    split_ifs at h with he
    · simp only [Option.some.injEq] at h
      exact List.mem_cons.2 (Or.inl (by rw [← he, ← h]))
    · exact List.mem_cons.2 (Or.inr (ih h))

theorem mem_assocSet {κ β : Type} [DecidableEq κ] {l : List (κ × β)} {k : κ} {v : β}
    {x : κ × β} (hx : x ∈ assocSet l k v) : x = (k, v) ∨ x ∈ l := by
  induction l with
  | nil => simpa [assocSet] using hx
  | cons e rest ih =>
    rw [assocSet] at hx
    split_ifs at hx with he
    · rcases List.mem_cons.1 hx with h | h
      · exact Or.inl (by rw [h, he])
      · exact Or.inr (List.mem_cons.2 (Or.inr h))
    · rcases List.mem_cons.1 hx with h | h
      · exact Or.inr (List.mem_cons.2 (Or.inl h))
      · rcases ih h with h2 | h2
        · exact Or.inl h2
        · exact Or.inr (List.mem_cons.2 (Or.inr h2))

theorem evictLoop_drop (l : List (String × (String × ℚ × Nat))) (size : Int) :
    ∃ k, (evictLoop l size).2 = l.drop k := by
  induction l generalizing size with
  | nil => exact ⟨0, rfl⟩
  | cons e rest ih =>
    rw [evictLoop]
    split_ifs
    · obtain ⟨k, hk⟩ := ih _
      exact ⟨k + 1, by simpa using hk⟩
    · exact ⟨0, rfl⟩

theorem readChunksLoop_mem (fi : FileInfo) :
    ∀ (n i : Nat) (cm : List (Nat × String)) (ec : Nat × String),
      ec ∈ (readChunksLoop fi i n cm).2 →
      ec ∈ cm ∨ ec.2 = strTake (strDrop fi.content (ec.1 * CHUNK_SIZE)) CHUNK_SIZE := by
  intro n
  induction n with
  | zero => intro i cm ec h; exact Or.inl h
  | succ m ih =>
    intro i cm ec h
    rw [readChunksLoop] at h
    revert h
    cases hfind : assocFind? cm i with
    | some chunk =>
      intro h
      exact ih (i + 1) cm ec h
    | none =>
      intro h
      split_ifs at h with hsz
      · exact Or.inl h
      · rcases ih (i + 1) _ ec h with h2 | h2
        · rcases mem_assocSet h2 with h3 | h3
          · refine Or.inr ?_
            rw [h3]
          · exact Or.inl h3
        · exact Or.inr h2


theorem readChunksLoop_zero (fi : FileInfo) (i : Nat) (cm : List (Nat × String)) :
    readChunksLoop fi i 0 cm = ([], cm) := rfl

theorem readChunksLoop_succ (fi : FileInfo) (i n : Nat) (cm : List (Nat × String)) :
    readChunksLoop fi i (n + 1) cm =
      match assocFind? cm i with
      | some chunk =>
        (chunk :: (readChunksLoop fi (i + 1) n cm).1, (readChunksLoop fi (i + 1) n cm).2)
      | none =>
        if fi.size ≤ i * CHUNK_SIZE then ([], cm)
        else
          (strTake (strDrop fi.content (i * CHUNK_SIZE)) CHUNK_SIZE ::
              (readChunksLoop fi (i + 1) n
                (assocSet cm i (strTake (strDrop fi.content (i * CHUNK_SIZE)) CHUNK_SIZE))).1,
            (readChunksLoop fi (i + 1) n
              (assocSet cm i (strTake (strDrop fi.content (i * CHUNK_SIZE)) CHUNK_SIZE))).2) := by
  rw [readChunksLoop]

theorem readChunks_first (fi : FileInfo) (cm : List (Nat × String))
    (hcm : ∀ ec ∈ cm, ec.2 = strTake (strDrop fi.content (ec.1 * CHUNK_SIZE)) CHUNK_SIZE)
    (hpos : 0 < fi.size) :
    String.join (readChunksLoop fi 0 1 cm).1 = strTake (strDrop fi.content 0) CHUNK_SIZE := by
  rw [readChunksLoop_succ]
  cases hfind : assocFind? cm 0 with
  | some chunk =>
    have hch := hcm (0, chunk) (assocFind?_mem hfind)
    dsimp only
    rw [readChunksLoop_zero]
    simpa [String.join] using hch
  | none =>
    dsimp only
    rw [if_neg (by omega)]
    rw [readChunksLoop_zero]
    simp [String.join]

theorem getFileContent_readValue (fs : FS) (ws : String) (s : ManagerState α) (path : String)
    (h : CacheConsistent fs s) :
    (getFileContent fs ws s path 0 1).1 = readValue fs path := by
  simp only [getFileContent, readValue]
  cases hfs : assocFind? fs path with
  | none => rfl
  | some fi =>
    dsimp only
    by_cases hsmall : fi.size < LARGE_FILE_THRESHOLD
    · rw [if_pos hsmall, if_pos hsmall]
      cases hc : assocFind? s.contentCache path with
      | none => rfl
      | some v =>
        obtain ⟨c, m, sz⟩ := v
        obtain ⟨fi2, hfi2, hv⟩ := h.1 (path, (c, m, sz)) (assocFind?_mem hc)
        rw [hfs] at hfi2
        injection hfi2 with hfi2
        subst hfi2
        simp only [Prod.mk.injEq] at hv
        dsimp only
        rw [if_pos ⟨hv.2.1, hv.2.2⟩]
        exact hv.1
    · rw [if_neg hsmall, if_neg hsmall]
      dsimp only
      have hpos : 0 < fi.size := by
        have hle := not_lt.1 hsmall
        unfold LARGE_FILE_THRESHOLD at hle
        omega
      refine readChunks_first fi _ ?_ hpos
      intro ec hec
      cases hcc : assocFind? s.chunkCache path with
      | none => rw [hcc] at hec; simp at hec
      | some cm0 =>
        rw [hcc] at hec
        obtain ⟨fi2, hfi2, hw⟩ := h.2 (path, cm0) (assocFind?_mem hcc) ec (by simpa using hec)
        rw [hfs] at hfi2
        injection hfi2 with hfi2
        subst hfi2
        exact hw

theorem readSmall_consistent (fs : FS) (ws : String) (s : ManagerState α) (path : String)
    (fi : FileInfo) (h : CacheConsistent fs s) (hfs : assocFind? fs path = some fi) :
    CacheConsistent fs (readSmall ws s path fi).2 := by
  obtain ⟨k, hk⟩ := evictLoop_drop s.contentCache (s.cacheSize + (fi.content.utf8ByteSize : Int))
  constructor
  · intro e he
    simp only [readSmall, updateCacheSize, cond_true] at he
    revert he
    split <;>
      · intro he
        dsimp only at he
        rw [hk] at he
        rcases mem_assocSet he with h2 | h2
        · exact ⟨fi, by rw [h2]; exact hfs, by rw [h2]⟩
        · exact h.1 e (List.mem_of_mem_drop h2)
  · intro pe hpe
    simp only [readSmall, updateCacheSize, cond_true] at hpe
    revert hpe
    split <;>
      · intro hpe
        dsimp only at hpe
        exact h.2 pe hpe

theorem getFileContent_consistent (fs : FS) (ws : String) (s : ManagerState α) (path : String)
    (h : CacheConsistent fs s) :
    CacheConsistent fs (getFileContent fs ws s path 0 1).2 := by
  simp only [getFileContent]
  cases hfs : assocFind? fs path with
  | none => exact h
  | some fi =>
    dsimp only
    by_cases hsmall : fi.size < LARGE_FILE_THRESHOLD
    · rw [if_pos hsmall]
      cases hc : assocFind? s.contentCache path with
      | none => exact readSmall_consistent fs ws s path fi h hfs
      | some v =>
        obtain ⟨c, m, sz⟩ := v
        dsimp only
        split_ifs with hmatch
        · exact h
        · exact readSmall_consistent fs ws s path fi h hfs
    · rw [if_neg hsmall]
      dsimp only
      constructor
      · intro e he
        revert he
        split <;> (intro he; exact h.1 e he)
      · intro pe hpe
        revert hpe
        split <;>
          · intro hpe
            dsimp only at hpe
            rcases mem_assocSet hpe with h2 | h2
            · intro ec hec
              rw [h2] at hec
              dsimp only at hec
              rcases readChunksLoop_mem fi 1 0 _ ec hec with h3 | h3
              · cases hcc : assocFind? s.chunkCache path with
                | none => rw [hcc] at h3; simp at h3
                | some cm0 =>
                  rw [hcc] at h3
                  obtain ⟨fi2, hfi2, hw⟩ :=
                    h.2 (path, cm0) (assocFind?_mem hcc) ec (by simpa using h3)
                  rw [hfs] at hfi2
                  injection hfi2 with hfi2
                  subst hfi2
                  exact ⟨fi, by rw [h2]; exact hfs, hw⟩
              · exact ⟨fi, by rw [h2]; exact hfs, h3⟩
            · exact h.2 pe h2

/-- C5 amended: with caches that agree with the filesystem (a fresh manager in
    particular), the no-query branch returns exactly the scanned files that
    sit directly in the workspace root or are under LARGE_FILE_THRESHOLD
    (1 MiB, not the claimed 50 KiB) and whose read content is nonempty, each
    mapped to its truncated content; the selection never consults the ranking
    index (noQuerySpec is a pure function of the filesystem and scan list). -/
theorem workspaceFilesNoQuery_spec (fs : FS) (ws : String) :
    ∀ (files : List (String × String)) (s : ManagerState α) (acc : List (String × String)),
      CacheConsistent fs s →
      (workspaceFilesNoQuery fs ws files s acc).1 = noQuerySpec fs files acc := by
  intro files
  induction files with
  | nil => intro s acc _; rfl
  | cons e rest ih =>
    intro s acc h
    rw [workspaceFilesNoQuery, noQuerySpec]
    cases hfs : assocFind? fs e.1 with
    | none => exact ih s acc h
    | some fi =>
      dsimp only
      by_cases hsel : pyDirname e.2 = "" ∨ fi.size < LARGE_FILE_THRESHOLD
      · rw [if_pos hsel, if_pos hsel]
        rw [getFileContent_readValue fs ws s e.1 h]
        have hcons := getFileContent_consistent fs ws s e.1 h
        by_cases hempty : readValue fs e.1 = ""
        · rw [if_pos hempty, if_pos hempty]
          exact ih _ acc hcons
        · rw [if_neg hempty, if_neg hempty]
          exact ih _ _ hcons
      · rw [if_neg hsel, if_neg hsel]
        exact ih s acc h

theorem workspaceFilesNoQuery_spec_witness :
    CacheConsistent fsC5 mgr0 ∧
    (workspaceFilesNoQuery fsC5 "/ws" [("/ws/sub/f.txt", "sub/f.txt")] mgr0 []).1 =
      noQuerySpec fsC5 [("/ws/sub/f.txt", "sub/f.txt")] [] := by
  have h : CacheConsistent fsC5 mgr0 := by
    constructor
    · intro e he
      simp [mgr0] at he
    · intro pe hpe
      simp [mgr0] at hpe
  exact ⟨h, workspaceFilesNoQuery_spec fsC5 "/ws" [("/ws/sub/f.txt", "sub/f.txt")] mgr0 [] h⟩

/-- C5 counterexample: a 100 KiB file inside a subdirectory fails the claimed
    root-or-under-50-KiB selection, yet the no-query branch returns it,
    because the code's threshold is LARGE_FILE_THRESHOLD (1 MiB). -/
theorem workspaceFilesNoQuery_50KiB_cex :
    ¬ claimNoQuerySelect "sub/f.txt" 102400 ∧
    assocFind? fsC5 "/ws/sub/f.txt" =
      some { content := "hello", mtime := 1, size := 102400 } ∧
    (workspaceFilesNoQuery fsC5 "/ws" [("/ws/sub/f.txt", "sub/f.txt")] mgr0 []).1 =
      [("sub/f.txt", "hello")] := by
  refine ⟨?_, by decide, by decide⟩
  unfold claimNoQuerySelect
  decide

/-- C6 counterexample: in the claim's own scenario (parser.py holds both
    query words in its first 4 KiB, style.css holds none in its path or
    content) the returned map nevertheless contains style.css, so the claim
    that it is excluded with score 0 is false. -/
theorem workspaceFilesQuery_scenario_cex :
    pyIn "parse" (pyLower (strTake "import json\ndef parse(x): pass\n" 4096)) = true ∧
    pyIn "json" (pyLower (strTake "import json\ndef parse(x): pass\n" 4096)) = true ∧
    pyIn "parse" (pyLower "style.css") = false ∧
    pyIn "json" (pyLower "style.css") = false ∧
    pyIn "parse" (pyLower (strTake "body { color: red }" 4096)) = false ∧
    pyIn "json" (pyLower (strTake "body { color: red }" 4096)) = false ∧
    assocFind? (workspaceFilesQuery fsC6 "/ws" mgr0 filesC6 "parse json").1 "style.css" =
      some "body { color: red }" := by
  refine ⟨by decide, by decide, by decide, by decide, by decide, by decide, by decide⟩

/-- C6 amended: parser.py scores 11 (+5 path, +3 content, +2 root, +1
    extension) and style.css scores 3 (+2 root, +1 extension) — not 0 — and
    with only two candidates both sit inside the top ten, so the returned map
    holds parser.py first and style.css as well. -/
theorem workspaceFilesQuery_scenario_amended :
    scoreFiles fsC6 mgr0 filesC6 "parse json" =
      [("/ws/parser.py", "parser.py", 11), ("/ws/style.css", "style.css", 3)] ∧
    (workspaceFilesQuery fsC6 "/ws" mgr0 filesC6 "parse json").1 =
      [("parser.py", "import json\ndef parse(x): pass\n"),
       ("style.css", "body { color: red }")] := by
  refine ⟨by decide, by decide⟩

theorem ite_pos_len (n : Nat) (x : α) :
    (if 0 < n then x else 0) = (if n = 0 then 0 else x) := by
  by_cases h : n = 0
  · rw [if_neg (by omega), if_pos h]
  · rw [if_pos (by omega), if_neg h]

theorem addDocument_inv (s : BM25State α) (p c : String) : BMCorpusInv (addDocument s p c) := by
  refine ⟨rfl, rfl, ?_⟩
  dsimp only [addDocument]
  exact ite_pos_len _ _

theorem removeDocument_inv (s : BM25State α) (p : String) (h : BMCorpusInv s) :
    BMCorpusInv (removeDocument s p) := by
  rw [removeDocument]
  split_ifs with hin
  · exact ⟨rfl, rfl, ite_pos_len _ _⟩
  · exact h

theorem applyOps_inv (ops : List BMOp) :
    ∀ s : BM25State α, BMCorpusInv s → BMCorpusInv (applyOps s ops) := by
  induction ops with
  | nil => intro s h; exact h
  | cons op rest ih =>
    intro s h
    cases op with
    | add p c => exact ih _ (addDocument_inv s p c)
    | remove p => exact ih _ (removeDocument_inv s p h)

theorem initBM25_inv : BMCorpusInv (initBM25 : BM25State α) :=
  ⟨rfl, rfl, by simp [initBM25]⟩

/-- C2: after any sequence of add_document/remove_document calls starting
    from a fresh index, avgDocLength is the sum of the stored document
    lengths divided by totalDocs (zero on an empty corpus), totalDocs matches
    the document map, and the IDF cache is empty. -/
theorem bm25_corpus_invariant (ops : List BMOp) :
    (applyOps (initBM25 : BM25State ℝ) ops).totalDocs =
      (applyOps (initBM25 : BM25State ℝ) ops).documents.length ∧
    (applyOps (initBM25 : BM25State ℝ) ops).idfCache = [] ∧
    (applyOps (initBM25 : BM25State ℝ) ops).avgDocLength =
      (if (applyOps (initBM25 : BM25State ℝ) ops).totalDocs = 0 then 0
       else (sumLengths (applyOps (initBM25 : BM25State ℝ) ops).documents : ℝ) /
         ((applyOps (initBM25 : BM25State ℝ) ops).totalDocs : ℝ)) := by
  obtain ⟨h1, h2, h3⟩ := applyOps_inv ops (initBM25 : BM25State ℝ) initBM25_inv
  refine ⟨h1, h2, ?_⟩
  rw [h3, h1]

theorem specIdf_congr (s1 s2 : BM25State ℝ) (hd : s1.documents = s2.documents)
    (ht : s1.totalDocs = s2.totalDocs) : specIdf s1 = specIdf s2 := by
  funext t
  rw [specIdf, specIdf, hd, ht]

theorem calculateIdf_spec (s : BM25State ℝ) (t : String) (h : IdfConsistent s) :
    (calculateIdf Real.log s t).1 = specIdf s t ∧
    (calculateIdf Real.log s t).2.documents = s.documents ∧
    (calculateIdf Real.log s t).2.totalDocs = s.totalDocs ∧
    (calculateIdf Real.log s t).2.avgDocLength = s.avgDocLength ∧
    IdfConsistent (calculateIdf Real.log s t).2 := by
  rw [calculateIdf]
  cases hf : assocFind? s.idfCache t with
  | some v =>
    exact ⟨h t v (assocFind?_mem hf), rfl, rfl, rfl, h⟩
  | none =>
    dsimp only
    refine ⟨rfl, rfl, rfl, rfl, ?_⟩
    intro u v hu
    rcases List.mem_append.1 hu with h2 | h2
    · exact h u v h2
    · simp only [List.mem_singleton, Prod.mk.injEq] at h2
      obtain ⟨h21, h22⟩ := h2
      subst h21
      rw [h22]
      rfl

theorem docScoreLoop_spec (doc : Document) (L : ℝ) :
    ∀ (terms : List String) (acc : ℝ) (s : BM25State ℝ), IdfConsistent s →
      (docScoreLoop Real.log doc L terms acc s).1 =
        acc + (terms.map (fun t =>
          if doc.terms.contains t then
            specIdf s t * (doc.terms.count t : ℝ) * (bmK1 + 1) /
              ((doc.terms.count t : ℝ) + bmK1 * L)
          else 0)).sum ∧
      (docScoreLoop Real.log doc L terms acc s).2.documents = s.documents ∧
      (docScoreLoop Real.log doc L terms acc s).2.totalDocs = s.totalDocs ∧
      (docScoreLoop Real.log doc L terms acc s).2.avgDocLength = s.avgDocLength ∧
      IdfConsistent (docScoreLoop Real.log doc L terms acc s).2 := by
  intro terms
  induction terms with
  | nil =>
    intro acc s h
    exact ⟨by simp [docScoreLoop], rfl, rfl, rfl, h⟩
  | cons t ts ih =>
    intro acc s h
    rw [docScoreLoop]
    split_ifs with hc
    · obtain ⟨hv, hd, hN, ha, hcons⟩ := calculateIdf_spec s t h
      obtain ⟨ih1, ih2, ih3, ih4, ih5⟩ := ih
        (acc + (calculateIdf Real.log s t).1 * (doc.terms.count t : ℝ) * (bmK1 + 1) /
          ((doc.terms.count t : ℝ) + bmK1 * L)) (calculateIdf Real.log s t).2 hcons
      refine ⟨?_, by rw [ih2, hd], by rw [ih3, hN], by rw [ih4, ha], ih5⟩
      rw [ih1, hv]
      rw [specIdf_congr (calculateIdf Real.log s t).2 s hd hN]
      simp only [List.map_cons, List.sum_cons, if_pos hc]
      ring
    · obtain ⟨ih1, ih2, ih3, ih4, ih5⟩ := ih acc s h
      refine ⟨?_, ih2, ih3, ih4, ih5⟩
      rw [ih1]
      simp only [List.map_cons, List.sum_cons, if_neg hc]
      ring

theorem searchScoresLoop_spec (queryTerms : List String) (avgLen : ℝ) :
    ∀ (docs : List (String × Document)) (scores : List (String × ℝ)) (s : BM25State ℝ),
      IdfConsistent s →
      (searchScoresLoop Real.log queryTerms avgLen docs scores s).1 =
        scores ++ (docs.map (fun e => (e.1,
          (queryTerms.map (fun t =>
            if e.2.terms.contains t then
              specIdf s t * (e.2.terms.count t : ℝ) * (bmK1 + 1) /
                ((e.2.terms.count t : ℝ) +
                  bmK1 * (1 - bmB + bmB * ((e.2.length : ℝ) / avgLen)))
            else 0)).sum))).filter (fun x => 0 < x.2) ∧
      IdfConsistent (searchScoresLoop Real.log queryTerms avgLen docs scores s).2 ∧
      (searchScoresLoop Real.log queryTerms avgLen docs scores s).2.documents = s.documents := by
  intro docs
  induction docs with
  | nil =>
    intro scores s h
    exact ⟨by simp [searchScoresLoop], h, rfl⟩
  | cons e rest ih =>
    intro scores s h
    simp only [searchScoresLoop, docScore]
    obtain ⟨hsc, hd, hN, ha, hcons⟩ :=
      docScoreLoop_spec e.2 (1 - bmB + bmB * ((e.2.length : ℝ) / avgLen)) queryTerms 0 s h
    rw [zero_add] at hsc
    obtain ⟨ih1, ih2, ih3⟩ := ih
      (if 0 < (docScoreLoop Real.log e.2 (1 - bmB + bmB * ((e.2.length : ℝ) / avgLen))
          queryTerms 0 s).1 then
        scores ++ [(e.1, (docScoreLoop Real.log e.2
          (1 - bmB + bmB * ((e.2.length : ℝ) / avgLen)) queryTerms 0 s).1)]
      else scores) _ hcons
    refine ⟨?_, ih2, by rw [ih3, hd]⟩
    rw [ih1, specIdf_congr _ s hd hN, hsc]
    by_cases hpos : 0 < (queryTerms.map (fun t =>
        if e.2.terms.contains t then
          specIdf s t * (e.2.terms.count t : ℝ) * (bmK1 + 1) /
            ((e.2.terms.count t : ℝ) + bmK1 * (1 - bmB + bmB * ((e.2.length : ℝ) / avgLen)))
        else 0)).sum
    · rw [if_pos hpos]
      simp only [List.map_cons, List.filter_cons, List.append_assoc, List.singleton_append]
      rw [if_pos (by simpa using hpos)]
    · rw [if_neg hpos]
      simp only [List.map_cons, List.filter_cons, List.append_assoc, List.singleton_append]
      rw [if_neg (by simpa using hpos)]

theorem specIdf_nonneg (s : BM25State ℝ) (t : String) (hN : s.totalDocs = s.documents.length) :
    0 ≤ specIdf s t := by
  rw [specIdf]
  apply Real.log_nonneg
  have hdf : docFreq s.documents t ≤ s.totalDocs := by
    rw [hN]
    exact List.length_filter_le _ _
  have hnum : (0 : ℝ) ≤ (s.totalDocs : ℝ) - (docFreq s.documents t : ℝ) + 1 / 2 := by
    have := Nat.cast_le (α := ℝ).2 hdf
    linarith
  have hden : (0 : ℝ) < (docFreq s.documents t : ℝ) + 1 / 2 := by
    have : (0 : ℝ) ≤ (docFreq s.documents t : ℝ) := Nat.cast_nonneg _
    linarith
  have : (0 : ℝ) ≤ ((s.totalDocs : ℝ) - (docFreq s.documents t : ℝ) + 1 / 2) /
      ((docFreq s.documents t : ℝ) + 1 / 2) := div_nonneg hnum hden.le
  linarith

theorem lenNorm_bound (len : Nat) (avg : ℝ) (havg : 0 ≤ avg) :
    (1 / 4 : ℝ) ≤ 1 - bmB + bmB * ((len : ℝ) / avg) := by
  unfold bmB
  have h1 : (0 : ℝ) ≤ (len : ℝ) / avg := div_nonneg (Nat.cast_nonneg _) havg
  nlinarith

theorem score_term_nonneg (s : BM25State ℝ) (t : String) (doc : Document) (L : ℝ)
    (hN : s.totalDocs = s.documents.length) (hL : (1 / 4 : ℝ) ≤ L) :
    0 ≤ (if doc.terms.contains t then
        specIdf s t * (doc.terms.count t : ℝ) * (bmK1 + 1) /
          ((doc.terms.count t : ℝ) + bmK1 * L)
      else 0) := by
  split_ifs with hc
  · have hidf := specIdf_nonneg s t hN
    have htf : (0 : ℝ) ≤ (doc.terms.count t : ℝ) := Nat.cast_nonneg _
    have hk : (0 : ℝ) < bmK1 := by unfold bmK1; norm_num
    have hden : (0 : ℝ) ≤ (doc.terms.count t : ℝ) + bmK1 * L := by
      have : (0 : ℝ) < bmK1 * L := by
        unfold bmK1 at *
        nlinarith
      linarith
    have hnum : (0 : ℝ) ≤ specIdf s t * (doc.terms.count t : ℝ) * (bmK1 + 1) := by
      have : (0 : ℝ) ≤ bmK1 + 1 := by unfold bmK1; norm_num
      positivity
    exact div_nonneg hnum hden
  · exact le_refl 0

theorem wellFormed_of_inv (s : BM25State ℝ) (h : BMCorpusInv s) : BMWellFormed s := by
  obtain ⟨h1, h2, h3⟩ := h
  refine ⟨h1, ?_, ?_⟩
  · rw [h3]
    split_ifs
    · exact le_refl 0
    · exact div_nonneg (Nat.cast_nonneg _) (Nat.cast_nonneg _)
  · intro t v hmem
    rw [h2] at hmem
    simp at hmem

/-- C3: with a well-formed index state (as add_document/remove_document
    produce), search scores every document by the claimed BM25 formula with
    k1 = 1.5 and b = 0.75 and IDF ln(1 + (N - df + 0.5)/(df + 0.5)), excludes
    the zero scores, sorts by descending score (stably) and truncates to
    topK: projecting the snippets away, its results equal specSearch. -/
theorem search_matches_spec (s : BM25State ℝ) (query : String) (topK : Nat)
    (h : BMWellFormed s) :
    (search Real.log s query topK).1.map (fun e => (e.1, e.2.1)) = specSearch s query topK := by
  obtain ⟨hN, havg, hidf⟩ := h
  obtain ⟨h1, _, _⟩ :=
    searchScoresLoop_spec (preprocess query) s.avgDocLength s.documents [] s hidf
  simp only [search, specSearch, specScore]
  rw [List.map_map]
  have hproj : ((fun e : String × ℝ × String => (e.1, e.2.1)) ∘
      (fun e : String × ℝ => (e.1, e.2,
        match assocFind? (searchScoresLoop Real.log (preprocess query) s.avgDocLength
            s.documents [] s).2.documents e.1 with
        | some doc => getRelevantSnippet doc.content (preprocess query) 200
        | none => ""))) = id := by
    funext e
    rfl
  rw [hproj, List.map_id, h1, List.nil_append]
  congr 1
  congr 1
  apply List.filter_congr
  intro x hx
  have hx2 : 0 ≤ x.2 := by
    simp only [List.mem_map] at hx
    obtain ⟨e, _, he⟩ := hx
    rw [← he]
    exact List.sum_nonneg (by
      intro y hy
      simp only [List.mem_map] at hy
      obtain ⟨t, _, hyt⟩ := hy
      rw [← hyt]
      exact score_term_nonneg s t e.2 _ hN
        (lenNorm_bound e.2.length s.avgDocLength havg))
  rw [decide_eq_decide]
  constructor
  · intro hlt
    exact ne_of_gt hlt
  · intro hne
    exact lt_of_le_of_ne hx2 (Ne.symm hne)

theorem search_matches_spec_witness :
    BMWellFormed bmW ∧
    (search Real.log bmW "aa" 10).1.map (fun e => (e.1, e.2.1)) = specSearch bmW "aa" 10 := by
  have h : BMWellFormed bmW := wellFormed_of_inv bmW (addDocument_inv initBM25 "A" "aa aa")
  exact ⟨h, search_matches_spec bmW "aa" 10 h⟩

theorem bm25_term_mono (I L x y : ℝ) (hI : 0 ≤ I) (hL : (1 / 4 : ℝ) ≤ L) (hx : 0 ≤ x)
    (hxy : x ≤ y) :
    I * x * (bmK1 + 1) / (x + bmK1 * L) ≤ I * y * (bmK1 + 1) / (y + bmK1 * L) := by
  unfold bmK1
  rw [div_le_div_iff (by nlinarith) (by nlinarith)]
  nlinarith [mul_le_mul_of_nonneg_left hxy hI, hL]

/-- C8 amended: restricted to a query whose tokens are all the single term t,
    the monotonicity holds: on a well-formed index, for indexed documents of
    equal stored length where A holds t strictly more often than B, the
    per-document score search computes for A is at least B's.  (For
    multi-term queries the original claim fails: see the counterexample.) -/
theorem bm25_single_term_monotonic (s : BM25State ℝ) (q t pA pB : String)
    (dA dB : Document) (h : BMWellFormed s)
    (hA : (pA, dA) ∈ s.documents) (hB : (pB, dB) ∈ s.documents)
    (hlen : dA.length = dB.length)
    (hq : ∀ u ∈ preprocess q, u = t)
    (hcount : dB.terms.count t < dA.terms.count t) :
    (docScore Real.log s.avgDocLength (preprocess q) dB s).1 ≤
      (docScore Real.log s.avgDocLength (preprocess q) dA s).1 := by
  obtain ⟨hN, havg, hidf⟩ := h
  rw [docScore, docScore]
  rw [(docScoreLoop_spec dB (1 - bmB + bmB * ((dB.length : ℝ) / s.avgDocLength))
      (preprocess q) 0 s hidf).1,
    (docScoreLoop_spec dA (1 - bmB + bmB * ((dA.length : ℝ) / s.avgDocLength))
      (preprocess q) 0 s hidf).1]
  rw [zero_add, zero_add, hlen]
  apply List.sum_le_sum
  intro u hu
  rw [hq u hu]
  have hLB := lenNorm_bound dB.length s.avgDocLength havg
  by_cases hcB : dB.terms.contains t
  · have hcA : dA.terms.contains t := by
      have hpos : 0 < dA.terms.count t := lt_of_le_of_lt (Nat.zero_le _) hcount
      simpa [List.contains] using List.elem_iff.2 (List.count_pos_iff.1 hpos)
    rw [if_pos hcB, if_pos hcA]
    exact bm25_term_mono (specIdf s t) _ _ _ (specIdf_nonneg s t hN) hLB
      (Nat.cast_nonneg _) (Nat.cast_le.2 hcount.le)
  · rw [if_neg hcB]
    exact score_term_nonneg s t dA _ hN hLB

theorem cex8_avg : cex8.avgDocLength = 3 := by
  have h6 : sumLengths cex8.documents = 6 := by decide
  have h2 : cex8.documents.length = 2 := by decide
  show (if 0 < cex8.documents.length then (sumLengths cex8.documents : ℝ) / (cex8.documents.length : ℝ) else 0) = 3
  rw [h6, h2]
  norm_num

theorem cex8_idf_aa : specIdf cex8 "aa" = Real.log (6 / 5) := by
  have hN2 : cex8.totalDocs = 2 := by decide
  have hdfa : docFreq cex8.documents "aa" = 2 := by decide
  rw [specIdf, hN2, hdfa]
  norm_num

theorem cex8_idf_bb : specIdf cex8 "bb" = Real.log 2 := by
  have hN2 : cex8.totalDocs = 2 := by decide
  have hdfb : docFreq cex8.documents "bb" = 1 := by decide
  rw [specIdf, hN2, hdfb]
  norm_num

theorem cex8_scoreA :
    (docScore Real.log cex8.avgDocLength (preprocess "aa bb") docA8 cex8).1 = scoreA8 := by
  have hwf : BMWellFormed cex8 := wellFormed_of_inv cex8 (addDocument_inv _ "B" "aa bb bb")
  have hq2 : preprocess "aa bb" = ["aa", "bb"] := by decide
  rw [docScore, (docScoreLoop_spec docA8 _ (preprocess "aa bb") 0 cex8 hwf.2.2).1, hq2]
  simp only [List.map_cons, List.map_nil, List.sum_cons, List.sum_nil]
  rw [if_pos (by decide : docA8.terms.contains "aa" = true),
    if_neg (by decide : ¬ (docA8.terms.contains "bb" = true))]
  rw [cex8_idf_aa, cex8_avg, (by decide : docA8.terms.count "aa" = 3)]
  simp only [docA8, scoreA8, bmK1, bmB]
  push_cast
  norm_num
  ring_nf

theorem cex8_scoreB :
    (docScore Real.log cex8.avgDocLength (preprocess "aa bb") docB8 cex8).1 = scoreB8 := by
  have hwf : BMWellFormed cex8 := wellFormed_of_inv cex8 (addDocument_inv _ "B" "aa bb bb")
  have hq2 : preprocess "aa bb" = ["aa", "bb"] := by decide
  rw [docScore, (docScoreLoop_spec docB8 _ (preprocess "aa bb") 0 cex8 hwf.2.2).1, hq2]
  simp only [List.map_cons, List.map_nil, List.sum_cons, List.sum_nil]
  rw [if_pos (by decide : docB8.terms.contains "aa" = true),
    if_pos (by decide : docB8.terms.contains "bb" = true)]
  rw [cex8_idf_aa, cex8_idf_bb, cex8_avg,
    (by decide : docB8.terms.count "aa" = 1), (by decide : docB8.terms.count "bb" = 2)]
  simp only [docB8, scoreB8, bmK1, bmB]
  push_cast
  norm_num
  ring_nf

theorem scoreA8_lt_scoreB8 : scoreA8 < scoreB8 := by
  have h1 : (0:ℝ) < Real.log (6 / 5) := Real.log_pos (by norm_num)
  have h2 : Real.log ((6:ℝ) / 5) ≤ Real.log 2 := Real.log_le_log (by norm_num) (by norm_num)
  rw [scoreA8, scoreB8]
  linarith

/-- C8: counterexample to the claim as stated.  In the two-document corpus
    cex8, documents A and B have equal stored length, A contains the query
    term aa strictly more often than B, yet for the query aa bb the score
    search computes for A is strictly below B's: the other query term bb,
    absent from A, contributes more to B than A's aa advantage is worth. -/
theorem bm25_monotonicity_cex :
    BMWellFormed cex8 ∧
    ("A", docA8) ∈ cex8.documents ∧
    ("B", docB8) ∈ cex8.documents ∧
    docA8.length = docB8.length ∧
    "aa" ∈ preprocess "aa bb" ∧
    docB8.terms.count "aa" < docA8.terms.count "aa" ∧
    (docScore Real.log cex8.avgDocLength (preprocess "aa bb") docA8 cex8).1 <
      (docScore Real.log cex8.avgDocLength (preprocess "aa bb") docB8 cex8).1 := by
  refine ⟨wellFormed_of_inv cex8 (addDocument_inv _ "B" "aa bb bb"),
    by decide, by decide, by decide, by decide, by decide, ?_⟩
  rw [cex8_scoreA, cex8_scoreB]
  exact scoreA8_lt_scoreB8

/-- C8 witness: the amended single-term monotonicity applied on cex8 with
    query aa, where document A holds aa three times and document B once. -/
theorem bm25_single_term_monotonic_witness :
    (docScore Real.log cex8.avgDocLength (preprocess "aa") docB8 cex8).1 ≤
      (docScore Real.log cex8.avgDocLength (preprocess "aa") docA8 cex8).1 :=
  bm25_single_term_monotonic cex8 "aa" "aa" "A" "B" docA8 docB8
    (wellFormed_of_inv cex8 (addDocument_inv _ "B" "aa bb bb"))
    (by decide) (by decide) (by decide) (by decide) (by decide)
